import Mathlib

/-!
Verification development for the pkombi parser-combinator core
(src/src/lib.rs).  A parser over element type `I` with output type `O`
is embedded as a function from the input slice (a `List I`) to an
optional pair of the output and the remainder.  The remainder mirrors
the source exactly: `some r` is an unconsumed (non-exhausted) suffix
and `none` is the distinguished "input exactly exhausted" marker
(`Option<&[I]>` in the source).

The repetition loops of `many`/`many1` are `while let` loops in the
source; they are embedded with explicit fuel, where running out of fuel
(which a strictly consuming inner parser never does on fuel
`input.length + 1`) is modelled as `none`, matching the fact that the
source loop would not produce a result.
-/

namespace Pkombi

/-- The matching function of a parser: `Fn(&[I]) -> Option<(O, Option<&[I]>)>`. -/
def Parser (I O : Type) : Type :=
  List I → Option (O × Option (List I))

/-- `Parser::skip` (src/src/lib.rs:24): consume the input, output unit. -/
def skip {I O : Type} (p : Parser I O) : Parser I Unit := fun input =>
  match p input with
  | some (_, r) => some ((), r)
  | none => none

/-- `Parser::maybe` (src/src/lib.rs:36): on failure, succeed with `none`
and the original cursor. -/
def maybe {I O : Type} (p : Parser I O) : Parser I (Option O) := fun input =>
  match p input with
  | some (o, some r) => some (some o, some r)
  | some (o, none) => some (some o, none)
  | none => some (none, some input)

/-- `Parser::or` (src/src/lib.rs:44): left-biased alternation. -/
def orP {I O : Type} (p1 p2 : Parser I O) : Parser I O := fun input =>
  match p1 input with
  | some (o, r) => some (o, r)
  | none => p2 input

/-- `Parser::and` (src/src/lib.rs:54): sequence both parsers; an
exhausted remainder after the first parser is an immediate failure. -/
def andP {I O O2 : Type} (p1 : Parser I O) (p2 : Parser I O2) :
    Parser I (O × O2) := fun input =>
  match p1 input with
  | some (o1, some r) =>
    match p2 r with
    | some (o2, r2) => some ((o1, o2), r2)
    | none => none
  | some (_, none) => none
  | none => none

/-- `Parser::then_maybe` (src/src/lib.rs:67): the first parser must
succeed; the second is optional, and is skipped on exhaustion. -/
def then_maybe {I O O2 : Type} (p1 : Parser I O) (p2 : Parser I O2) :
    Parser I (O × Option O2) := fun input =>
  match p1 input with
  | some (o1, some r) =>
    match p2 r with
    | some (o2, r1) => some ((o1, some o2), r1)
    | none => some ((o1, none), some r)
  | some (o1, none) => some ((o1, none), none)
  | none => none

/-- The `while let` loop of `Parser::many` (src/src/lib.rs:80), with
explicit fuel; running out of fuel stands for the loop not finishing. -/
def manyAux {I O : Type} (p : Parser I O) :
    Nat → List I → List O → Option (List O × Option (List I))
  | 0, _, _ => none
  | fuel + 1, input, elements =>
    match p input with
    | none => some (elements, some input)
    | some (o, none) => some (elements ++ [o], none)
    | some (o, some r) => manyAux p fuel r (elements ++ [o])

/-- `Parser::many` (src/src/lib.rs:79): zero or more repetitions. -/
def many {I O : Type} (p : Parser I O) : Parser I (List O) := fun input =>
  manyAux p (input.length + 1) input []

/-- The loop of `Parser::many1` (src/src/lib.rs:95), with explicit fuel:
identical to the `many` loop except that an empty collection at normal
loop exit is reported as failure. -/
def many1Aux {I O : Type} (p : Parser I O) :
    Nat → List I → List O → Option (Option (List O) × Option (List I))
  | 0, _, _ => none
  | fuel + 1, input, elements =>
    match p input with
    | none => if elements.isEmpty then none else some (some elements, some input)
    | some (o, none) => some (some (elements ++ [o]), none)
    | some (o, some r) => many1Aux p fuel r (elements ++ [o])

/-- `Parser::many1` (src/src/lib.rs:94): one or more repetitions. -/
def many1 {I O : Type} (p : Parser I O) : Parser I (Option (List O)) := fun input =>
  many1Aux p (input.length + 1) input []

/-- `Parser::choice` (src/src/lib.rs:113): try the candidates in order,
return the first match, otherwise fail. -/
def choice {I O : Type} : List (Parser I O) → Parser I O
  | [] => fun _ => none
  | p :: rest => fun input =>
    match p input with
    | some (o, r) => some (o, r)
    | none => choice rest input

/-- `Parser::map` (src/src/lib.rs:124). -/
def map {I O NewO : Type} (p : Parser I O) (f : O → NewO) : Parser I NewO :=
  fun input => (p input).map fun (o, r) => (f o, r)

/-- `Parser::filter` (src/src/lib.rs:130). -/
def filterP {I O : Type} (p : Parser I O) (f : O → Bool) : Parser I O :=
  fun input => (p input).filter fun (o, _) => f o

/-- `satisfy` (src/src/lib.rs:142): consume one element satisfying the
predicate; the remainder is `some` of the rest when that is non-empty
and the exhausted marker `none` when it is empty. -/
def satisfy (f : Char → Bool) : Parser Char Char := fun input =>
  match input with
  | [] => none
  | e :: rest =>
    if f e then
      if rest.isEmpty then some (e, none) else some (e, some rest)
    else none

/-- `char` (src/src/lib.rs:153): consume one element equal to `c`. -/
def charP (c : Char) : Parser Char Char := fun input =>
  match input with
  | [] => none
  | e :: rest =>
    if e = c then
      if rest.isEmpty then some (e, none) else some (e, some rest)
    else none

/-- `char::is_ascii_digit`. -/
def isAsciiDigit (c : Char) : Bool :=
  '0' ≤ c && c ≤ '9'

/-- `digit` (src/src/lib.rs:161): consume one ASCII digit. -/
def digitP : Parser Char Char := fun input =>
  match input with
  | [] => none
  | e :: rest =>
    if isAsciiDigit e then
      if rest.isEmpty then some (e, none) else some (e, some rest)
    else none

/-- The `CollectChars` trait (src/src/lib.rs:173). -/
class CollectChars (α : Type) where
  into_string : α → String

/-- `impl CollectChars for char` (src/src/lib.rs:177). -/
instance : CollectChars Char :=
  ⟨fun c => c.toString⟩

/-- `impl CollectChars for Vec<char>` (src/src/lib.rs:183). -/
instance : CollectChars (List Char) :=
  ⟨fun l => l.asString⟩

/-- `impl CollectChars for Option<T>` (src/src/lib.rs:189). -/
instance {α : Type} [CollectChars α] : CollectChars (Option α) :=
  ⟨fun o => (o.map CollectChars.into_string).getD ""⟩

/-- `impl CollectChars for (A, B)` (src/src/lib.rs:195). -/
instance {α β : Type} [CollectChars α] [CollectChars β] : CollectChars (α × β) :=
  ⟨fun p => CollectChars.into_string p.1 ++ CollectChars.into_string p.2⟩

/-- `Parser::into_string` (src/src/lib.rs:205). -/
def intoStringP {I O : Type} [CollectChars O] (p : Parser I O) : Parser I String :=
  map p CollectChars.into_string

/-- The caller obligation of §4.5: the inner parser strictly advances
the cursor on every success that leaves a non-exhausted remainder. -/
def Consuming {I O : Type} (p : Parser I O) : Prop :=
  ∀ s o r, p s = some (o, some r) → r.length < s.length

/-! Helper lemmas (shared; none of these is a claim's theorem). -/

/-- Unfolding lemma for `satisfy` on a non-empty input. -/
theorem satisfy_cons (f : Char → Bool) (a : Char) (t : List Char) :
    satisfy f (a :: t) =
      if f a then (if t.isEmpty then some (a, none) else some (a, some t)) else none := rfl

/-- Unfolding lemma for `charP` on a non-empty input. -/
theorem charP_cons (c : Char) (a : Char) (t : List Char) :
    charP c (a :: t) =
      if a = c then (if t.isEmpty then some (a, none) else some (a, some t)) else none := rfl

/-- Unfolding lemma for `digitP` on a non-empty input. -/
theorem digitP_cons (a : Char) (t : List Char) :
    digitP (a :: t) =
      if isAsciiDigit a then (if t.isEmpty then some (a, none) else some (a, some t)) else none := rfl

/-- A successful `satisfy` consumed exactly the head; a present remainder
is the non-empty tail. -/
theorem satisfy_eq_some {f : Char → Bool} {s : List Char} {e : Char}
    {rem : Option (List Char)} (h : satisfy f s = some (e, rem)) :
    f e = true ∧ ∃ t, s = e :: t ∧ rem = (if t.isEmpty then none else some t) := by
  cases s with
  | nil => simp [satisfy] at h
  | cons a t =>
    rw [satisfy_cons] at h
    by_cases hf : f a
    · rw [if_pos hf] at h
      by_cases ht : t.isEmpty
      · rw [if_pos ht] at h
        obtain ⟨he, hr⟩ := Prod.mk.injEq .. ▸ Option.some.injEq .. ▸ h
        subst he
        exact ⟨hf, t, rfl, by rw [if_pos ht, hr]⟩
      · rw [if_neg ht] at h
        obtain ⟨he, hr⟩ := Prod.mk.injEq .. ▸ Option.some.injEq .. ▸ h
        subst he
        exact ⟨hf, t, rfl, by rw [if_neg ht, hr]⟩
    · rw [if_neg hf] at h
      exact absurd h (by simp)

/-- `satisfy` strictly consumes whenever the remainder is present. -/
theorem satisfy_consuming (f : Char → Bool) : Consuming (satisfy f) := by
  intro s e r h
  obtain ⟨-, t, hs, hr⟩ := satisfy_eq_some h
  subst hs
  by_cases ht : t.isEmpty
  · rw [if_pos ht] at hr; exact absurd hr (by simp)
  · rw [if_neg ht] at hr
    obtain rfl := Option.some.injEq .. ▸ hr
    simp

/-- `charP c` is extensionally `satisfy` of equality with `c`. -/
theorem charP_eq_satisfy (c : Char) : charP c = satisfy (fun x => x == c) := by
  funext input
  cases input with
  | nil => rfl
  | cons a t =>
    rw [charP_cons, satisfy_cons]
    by_cases h : a = c <;> simp [h]

/-- `digitP` is definitionally `satisfy` of the ASCII-digit predicate. -/
theorem digitP_eq_satisfy : digitP = satisfy isAsciiDigit := rfl

/-- `charP` strictly consumes whenever the remainder is present. -/
theorem charP_consuming (c : Char) : Consuming (charP c) := by
  rw [charP_eq_satisfy]
  exact satisfy_consuming _

/-- With a strictly consuming inner parser, fuel larger than the input
length is enough: the `many` loop always produces a result. -/
theorem manyAux_ne_none {I O : Type} {p : Parser I O} (hp : Consuming p) :
    ∀ fuel input elements, input.length < fuel →
      ∃ v, manyAux p fuel input elements = some v := by
  intro fuel
  induction fuel with
  | zero => intro input elements h; exact absurd h (by omega)
  | succ n ih =>
    intro input elements hlen
    cases hps : p input with
    | none => exact ⟨(elements, some input), by simp [manyAux, hps]⟩
    | some v =>
      rcases v with ⟨o, r⟩
      cases r with
      | none => exact ⟨(elements ++ [o], none), by simp [manyAux, hps]⟩
      | some r =>
        have hr : r.length < input.length := hp input o r hps
        have hstep := ih r (elements ++ [o]) (by omega)
        simpa [manyAux, hps] using hstep

/-- Once at least one element is collected, the `many1` loop is the
`many` loop with its collection wrapped in `some`. -/
theorem many1Aux_eq_manyAux {I O : Type} (p : Parser I O) :
    ∀ fuel input elements, elements ≠ [] →
      many1Aux p fuel input elements =
        (manyAux p fuel input elements).map fun v => (some v.1, v.2) := by
  intro fuel
  induction fuel with
  | zero => intro input elements _; rfl
  | succ n ih =>
    intro input elements hne
    cases hps : p input with
    | none => simp [many1Aux, manyAux, hps, List.isEmpty_iff, hne]
    | some v =>
      rcases v with ⟨o, r⟩
      cases r with
      | none => simp [many1Aux, manyAux, hps]
      | some r => simpa [many1Aux, manyAux, hps] using ih r (elements ++ [o]) (by simp)

/-- How `many1` relates to `many` on any input, for any inner parser. -/
theorem many1_eq_many_map {I O : Type} (p : Parser I O) (s : List I) :
    (p s = none → many1 p s = none ∧ many p s = some ([], some s)) ∧
    (p s ≠ none → many1 p s = (many p s).map fun v => (some v.1, v.2)) := by
  constructor
  · intro h
    constructor
    · simp [many1, many1Aux, h]
    · simp [many, manyAux, h]
  · intro h
    cases hps : p s with
    | none => exact absurd hps h
    | some v =>
      rcases v with ⟨o, r⟩
      cases r with
      | none => simp [many1, many, many1Aux, manyAux, hps]
      | some r =>
        have hrel := many1Aux_eq_manyAux p s.length r [o] (by simp)
        simp only [many1, many, many1Aux, manyAux, hps]
        exact hrel

/-- A success of the `many1` loop always carries `some` of a non-empty
collection. -/
theorem many1Aux_some_nonempty {I O : Type} (p : Parser I O) :
    ∀ fuel input elements v rem, many1Aux p fuel input elements = some (v, rem) →
      ∃ es, v = some es ∧ es ≠ [] := by
  intro fuel
  induction fuel with
  | zero => intro input elements v rem h; exact absurd h (by simp [many1Aux])
  | succ n ih =>
    intro input elements v rem h
    cases hps : p input with
    | none =>
      rw [many1Aux, hps] at h
      by_cases he : elements.isEmpty
      · rw [if_pos he] at h; exact absurd h (by simp)
      · rw [if_neg he] at h
        obtain ⟨hv, -⟩ := Prod.mk.injEq .. ▸ Option.some.injEq .. ▸ h
        exact ⟨elements, hv.symm, by simpa [List.isEmpty_iff] using he⟩
    | some w =>
      rcases w with ⟨o, r⟩
      cases r with
      | none =>
        rw [many1Aux, hps] at h
        obtain ⟨hv, -⟩ := Prod.mk.injEq .. ▸ Option.some.injEq .. ▸ h
        exact ⟨elements ++ [o], hv.symm, by simp⟩
      | some r =>
        rw [many1Aux, hps] at h
        exact ih r (elements ++ [o]) v rem h

/-- `choice` of no candidates fails on every input. -/
theorem choice_nil {I O : Type} (s : List I) :
    choice ([] : List (Parser I O)) s = none := rfl

/-- `choice` fails exactly when every candidate fails. -/
theorem choice_none_iff {I O : Type} (ps : List (Parser I O)) (s : List I) :
    choice ps s = none ↔ ∀ p ∈ ps, p s = none := by
  induction ps with
  | nil => simp [choice]
  | cons p rest ih =>
    cases h : p s with
    | none => simp [choice, h, ih]
    | some v => simp [choice, h]

/-- `choice` returns the first success in list order. -/
theorem choice_first_success {I O : Type} (ps1 : List (Parser I O)) (p : Parser I O)
    (ps2 : List (Parser I O)) (s : List I) (o : O) (r : Option (List I))
    (hfail : ∀ q ∈ ps1, q s = none) (h : p s = some (o, r)) :
    choice (ps1 ++ p :: ps2) s = some (o, r) := by
  induction ps1 with
  | nil => simp [choice, h]
  | cons q rest ih =>
    have hq : q s = none := hfail q (by simp)
    have hrest : ∀ q2 ∈ rest, q2 s = none := fun q2 hq2 => hfail q2 (by simp [hq2])
    simp [choice, hq, ih hrest]

/-- The `Vec<char>` collection is the left-to-right concatenation of the
per-character strings. -/
theorem asString_eq_foldr (l : List Char) :
    l.asString = (l.map fun ch => CollectChars.into_string ch).foldr (· ++ ·) "" := by
  induction l with
  | nil => rfl
  | cons a t ih =>
    show (a :: t).asString =
      CollectChars.into_string a ++ (t.map fun ch => CollectChars.into_string ch).foldr (· ++ ·) ""
    rw [← ih]
    rfl

/-! The claims. -/

/-- Claim C1, counterexample: `char('c')` succeeds on `['c']` consuming
the whole input, and `many(char('d'))` matches an empty remainder, yet
`and(char('c'), many(char('d')))` fails on `['c']` — the second parser
is never attempted once the remainder carries the exhausted marker, so
the baseline boundary rule does not hold of this code. -/
theorem and_exhausted_counterexample :
    charP 'c' ['c'] = some ('c', none) ∧
    many (charP 'd') ([] : List Char) = some ([], some []) ∧
    andP (charP 'c') (many (charP 'd')) ['c'] = none :=
  ⟨rfl, rfl, rfl⟩

/-- Claim C1, amended: under the tri-state remainder the code actually
implements, `and(p1, p2)` fails when `p1` fails and also, immediately
and without attempting `p2`, when `p1` succeeds with the exhausted
marker; only when `p1` succeeds with a present remainder is `p2`
attempted on it, the composite succeeding exactly when `p2` does. -/
theorem and_tristate_spec {I O O2 : Type} (p1 : Parser I O) (p2 : Parser I O2) (s : List I) :
    (p1 s = none → andP p1 p2 s = none) ∧
    (∀ o1, p1 s = some (o1, none) → andP p1 p2 s = none) ∧
    (∀ o1 r, p1 s = some (o1, some r) →
      (∀ o2 r2, p2 r = some (o2, r2) → andP p1 p2 s = some ((o1, o2), r2)) ∧
      (p2 r = none → andP p1 p2 s = none)) := by
  refine ⟨?_, ?_, ?_⟩
  · intro h; simp [andP, h]
  · intro o1 h; simp [andP, h]
  · intro o1 r h
    constructor
    · intro o2 r2 h2; simp [andP, h, h2]
    · intro h2; simp [andP, h, h2]

/-- Claim C1, witness for the amended statement at a concrete input. -/
theorem and_tristate_spec_witness :
    andP (charP 'c') (charP 'd') ['c', 'd', 'x'] = some (('c', 'd'), some ['x']) :=
  ((and_tristate_spec (charP 'c') (charP 'd') ['c', 'd', 'x']).2.2 'c' ['d', 'x']
      (by decide)).1 'd' (some ['x']) (by decide)

/-- Claim C2: `then_maybe(p1, p2)` fails exactly when `p1` fails; on a
present remainder `r` of `p1`, a success of `p2` yields
`((o1, some o2), p2.remainder)` and a failure of `p2` yields
`((o1, none), some r)`, the remainder reverting to `p1`'s; on an
exhausted remainder `p2` is skipped and the result is
`((o1, none), exhausted)`. -/
theorem then_maybe_spec {I O O2 : Type} (p1 : Parser I O) (p2 : Parser I O2) (s : List I) :
    (then_maybe p1 p2 s = none ↔ p1 s = none) ∧
    (∀ o1 r, p1 s = some (o1, some r) →
      (∀ o2 r2, p2 r = some (o2, r2) → then_maybe p1 p2 s = some ((o1, some o2), r2)) ∧
      (p2 r = none → then_maybe p1 p2 s = some ((o1, none), some r))) ∧
    (∀ o1, p1 s = some (o1, none) → then_maybe p1 p2 s = some ((o1, none), none)) := by
  refine ⟨?_, ?_, ?_⟩
  · cases h : p1 s with
    | none => simp [then_maybe, h]
    | some v =>
      rcases v with ⟨o1, r⟩
      cases r with
      | none => simp [then_maybe, h]
      | some r =>
        cases h2 : p2 r with
        | none => simp [then_maybe, h, h2]
        | some w =>
          rcases w with ⟨o2, r2⟩
          simp [then_maybe, h, h2]
  · intro o1 r h
    constructor
    · intro o2 r2 h2; simp [then_maybe, h, h2]
    · intro h2; simp [then_maybe, h, h2]
  · intro o1 h; simp [then_maybe, h]

/-- Claim C2, witness: `then_maybe(char('c'), char('d'))` on
`['c', 'c']` keeps `char('c')`'s remainder when `char('d')` fails. -/
theorem then_maybe_spec_witness :
    then_maybe (charP 'c') (charP 'd') ['c', 'c'] = some (('c', none), some ['c']) :=
  ((then_maybe_spec (charP 'c') (charP 'd') ['c', 'c']).2.1 'c' ['c'] (by decide)).2 (by decide)

/-- Claim C3: for a strictly consuming inner parser, `many1` fails
exactly when the inner parser has no leading match, and on at least one
leading match it returns `some` of exactly the elements `many` collects,
with the same remainder. -/
theorem many1_iff_many {I O : Type} (p : Parser I O) (hp : Consuming p) (s : List I) :
    (many1 p s = none ↔ p s = none) ∧
    (∀ es rem, many p s = some (es, rem) → p s ≠ none →
      many1 p s = some (some es, rem)) := by
  constructor
  · constructor
    · intro h
      by_contra hne
      have hmap := (many1_eq_many_map p s).2 hne
      obtain ⟨v, hv⟩ := manyAux_ne_none hp (s.length + 1) s [] (Nat.lt_succ_self _)
      rw [hmap, show many p s = some v from hv] at h
      simp at h
    · intro h
      exact ((many1_eq_many_map p s).1 h).1
  · intro es rem hmany hne
    have hmap := (many1_eq_many_map p s).2 hne
    rw [hmap, hmany]
    rfl

/-- Claim C3, witness: `many1(char('c'))` on `['d']` fails exactly
because `char('c')` has no leading match there. -/
theorem many1_iff_many_witness :
    many1 (charP 'c') ['d'] = none ↔ charP 'c' ['d'] = none :=
  (many1_iff_many (charP 'c') (charP_consuming 'c') ['d']).1

/-- Claim C4: for a strictly consuming inner parser, `many` never
fails: it always returns `some`. -/
theorem many_never_fails {I O : Type} (p : Parser I O) (hp : Consuming p) (s : List I) :
    ∃ v, many p s = some v :=
  manyAux_ne_none hp (s.length + 1) s [] (Nat.lt_succ_self _)

/-- Claim C4, witness at a concrete strictly consuming parser. -/
theorem many_never_fails_witness :
    ∃ v, many (charP 'c') ['c', 'c', 'd'] = some v :=
  many_never_fails (charP 'c') (charP_consuming 'c') ['c', 'c', 'd']

/-- Claim C5: `or` is left-biased — a success of `p1` is returned
unmodified and a failure of `p1` hands the original input to `p2` —
and `choice` returns the first success in list order, failing exactly
when every candidate fails (so `choice` of no candidates always
fails). -/
theorem or_choice_spec {I O : Type} (p1 p2 : Parser I O) (ps : List (Parser I O)) (s : List I) :
    (∀ o r, p1 s = some (o, r) → orP p1 p2 s = some (o, r)) ∧
    (p1 s = none → orP p1 p2 s = p2 s) ∧
    choice ([] : List (Parser I O)) s = none ∧
    (choice ps s = none ↔ ∀ p ∈ ps, p s = none) ∧
    (∀ ps1 q ps2 o r, ps = ps1 ++ q :: ps2 → (∀ q1 ∈ ps1, q1 s = none) →
      q s = some (o, r) → choice ps s = some (o, r)) := by
  refine ⟨?_, ?_, choice_nil s, choice_none_iff ps s, ?_⟩
  · intro o r h; simp [orP, h]
  · intro h; simp [orP, h]
  · rintro ps1 q ps2 o r rfl hfail hq
    exact choice_first_success ps1 q ps2 s o r hfail hq

/-- Claim C5, witness: a success of the left parser is returned as is. -/
theorem or_choice_spec_witness :
    orP (charP 'c') digitP ['c'] = some ('c', none) :=
  (or_choice_spec (charP 'c') digitP ([] : List (Parser Char Char)) ['c']).1 'c' none (by decide)

/-- Claim C6: `maybe` never fails: a success of `p` is wrapped in
`some` keeping `p`'s remainder, and a failure of `p` becomes a success
with output `none` and the original, unmodified cursor. -/
theorem maybe_never_fails {I O : Type} (p : Parser I O) (s : List I) :
    (∃ v, maybe p s = some v) ∧
    (∀ o r, p s = some (o, r) → maybe p s = some (some o, r)) ∧
    (p s = none → maybe p s = some (none, some s)) := by
  refine ⟨?_, ?_, ?_⟩
  · cases h : p s with
    | none => exact ⟨(none, some s), by simp [maybe, h]⟩
    | some v =>
      rcases v with ⟨o, r⟩
      cases r with
      | none => exact ⟨(some o, none), by simp [maybe, h]⟩
      | some r => exact ⟨(some o, some r), by simp [maybe, h]⟩
  · intro o r h
    cases r <;> simp [maybe, h]
  · intro h; simp [maybe, h]

/-- Claim C6, witness: `maybe(char('c'))` on `['d']` succeeds with
`none` and the original cursor. -/
theorem maybe_never_fails_witness :
    maybe (charP 'c') ['d'] = some (none, some ['d']) :=
  (maybe_never_fails (charP 'c') ['d']).2.2 (by decide)

/-- Claim C7: `satisfy f` succeeds exactly on a non-empty input whose
head satisfies `f`, outputting the head with the rest as remainder (the
exhausted marker when the rest is empty); `char c` and `digit` are
`satisfy` specialized to equality with `c` and to the ASCII-digit
predicate; every primitive fails on the empty input. -/
theorem primitives_spec (f : Char → Bool) (c : Char) (s : List Char) :
    ((∃ e r, satisfy f s = some (e, r)) ↔ ∃ e t, s = e :: t ∧ f e = true) ∧
    (∀ e t, s = e :: t → f e = true →
      satisfy f s = some (e, if t.isEmpty then none else some t)) ∧
    charP c = satisfy (fun x => x == c) ∧
    digitP = satisfy isAsciiDigit ∧
    satisfy f [] = none ∧ charP c [] = none ∧ digitP [] = none := by
  refine ⟨?_, ?_, charP_eq_satisfy c, digitP_eq_satisfy, rfl, rfl, rfl⟩
  · constructor
    · rintro ⟨e, r, h⟩
      obtain ⟨hf, t, hs, -⟩ := satisfy_eq_some h
      exact ⟨e, t, hs, hf⟩
    · rintro ⟨e, t, rfl, hf⟩
      refine ⟨e, if t.isEmpty then none else some t, ?_⟩
      rw [satisfy_cons, if_pos hf]
      by_cases ht : t.isEmpty <;> simp [ht]
  · rintro e t rfl hf
    rw [satisfy_cons, if_pos hf]
    by_cases ht : t.isEmpty <;> simp [ht]

/-- Claim C7, witness: `satisfy` of the digit predicate at a concrete
non-empty input. -/
theorem primitives_spec_witness :
    satisfy isAsciiDigit ['1', '2'] =
      some ('1', if (['2'] : List Char).isEmpty then none else some ['2']) :=
  (primitives_spec isAsciiDigit 'c' ['1', '2']).2.1 '1' ['2'] rfl (by decide)

/-- Claim C8: `into_string` folds character-shaped outputs to text: a
character gives its one-character string, an absent optional the empty
string, a present optional its content's string, a character sequence
the in-order concatenation of its elements' strings, and a pair the
left string followed by the right; concretely,
`digit().many().into_string()` on `['1','2','3']` succeeds with output
`"123"` and an exhausted remainder. -/
theorem into_string_fold (α β : Type) [CollectChars α] [CollectChars β]
    (a : α) (b : β) (c : Char) (l : List Char) :
    CollectChars.into_string c = String.mk [c] ∧
    CollectChars.into_string (none : Option α) = "" ∧
    CollectChars.into_string (some a) = CollectChars.into_string a ∧
    CollectChars.into_string l = (l.map fun ch => CollectChars.into_string ch).foldr (· ++ ·) "" ∧
    CollectChars.into_string (a, b) = CollectChars.into_string a ++ CollectChars.into_string b ∧
    intoStringP (many digitP) ['1', '2', '3'] = some ("123", none) :=
  ⟨rfl, rfl, rfl, asString_eq_foldr l, rfl, by decide⟩

/-- Claim C9: a primitive that succeeds with a present remainder left a
non-empty one; consuming the final element is reported with the
exhausted marker, never as `some` of an empty slice. -/
theorem primitive_remainder_invariant (f : Char → Bool) (c : Char) (s : List Char) :
    (∀ e r, satisfy f s = some (e, some r) → r ≠ []) ∧
    (∀ e r, charP c s = some (e, some r) → r ≠ []) ∧
    (∀ e r, digitP s = some (e, some r) → r ≠ []) ∧
    (∀ e rem, satisfy f s = some (e, rem) → (rem = none ↔ s = [e])) := by
  have key : ∀ (g : Char → Bool) e r, satisfy g s = some (e, some r) → r ≠ [] := by
    intro g e r h
    obtain ⟨-, t, hs, hr⟩ := satisfy_eq_some h
    by_cases ht : t.isEmpty
    · rw [if_pos ht] at hr; exact absurd hr (by simp)
    · rw [if_neg ht] at hr
      simp only [Option.some.injEq] at hr
      subst hr
      simpa [List.isEmpty_iff] using ht
  refine ⟨key f, ?_, ?_, ?_⟩
  · intro e r h
    rw [charP_eq_satisfy] at h
    exact key _ e r h
  · intro e r h
    rw [digitP_eq_satisfy] at h
    exact key _ e r h
  · intro e rem h
    obtain ⟨-, t, hs, hr⟩ := satisfy_eq_some h
    subst hs
    by_cases ht : t.isEmpty
    · rw [if_pos ht] at hr
      obtain rfl := List.isEmpty_iff.mp ht
      simp [hr]
    · rw [if_neg ht] at hr
      have htne : t ≠ [] := by simpa [List.isEmpty_iff] using ht
      simp [hr, htne]

/-- Claim C9, witness: a present remainder of a primitive at a concrete
input is non-empty. -/
theorem primitive_remainder_invariant_witness :
    (['x'] : List Char) ≠ [] :=
  (primitive_remainder_invariant (fun _ => true) 'c' ['c', 'x']).2.1 'c' ['x'] (by decide)

/-- Claim C10: whenever `many1` succeeds, its output of type
`Option (List O)` is `some` of a non-empty list — the `none` value of
the output type is unreachable, zero matches being reported as overall
failure instead. -/
theorem many1_output_nonempty {I O : Type} (p : Parser I O) (s : List I)
    (v : Option (List O)) (rem : Option (List I)) (h : many1 p s = some (v, rem)) :
    ∃ es, v = some es ∧ es ≠ [] :=
  many1Aux_some_nonempty p (s.length + 1) s [] v rem h

/-- Claim C10, witness at a concrete successful `many1` parse. -/
theorem many1_output_nonempty_witness :
    ∃ es, (some ['c'] : Option (List Char)) = some es ∧ es ≠ [] :=
  many1_output_nonempty (charP 'c') ['c'] (some ['c']) none (by decide)

end Pkombi
